import Mathlib

/-!
kinect-ndi: the per-frame pipeline of `ofApp`

A shallow embedding of `src/ofApp.cpp` / `src/ofApp.h`:

* the depth segmentation of `ofApp::update` (library path and manual path),
* the grid loop of `ofApp::drawPointCloud`,
* the configuration state changed by `ofApp::setup` and `ofApp::keyPressed`.

Pixels are `unsigned char` samples, embedded as natural numbers; the `int`
members of `ofApp` are embedded as integers (none of the operations below can
leave the 32-bit range from a state inside the clamping bounds).
-/

namespace KinectNdi

/-! ## Images -/

/-- An `ofxCvGrayscaleImage`: its dimensions and its single-channel pixel
buffer in row-major order. -/
structure GrayImage where
  width : Nat
  height : Nat
  pixels : List Nat
deriving DecidableEq, Repr

/-- The buffer of an allocated image holds `width * height` samples. -/
def GrayImage.allocated (img : GrayImage) : Prop :=
  img.pixels.length = img.width * img.height

instance (img : GrayImage) : Decidable img.allocated := by
  unfold GrayImage.allocated; infer_instance

/-- Result of `ofxCvGrayscaleImage::threshold(value, invert)` on one sample.
The primitive belongs to the ofxOpenCv addon (it is not part of this
repository, and the specification leaves its boundary convention open): it
calls `cvThreshold(src, dst, value, 255, type)` with
`type = CV_THRESH_BINARY_INV` when `invert` is set and `CV_THRESH_BINARY`
otherwise, that is `dst = (src > value) ? 0 : 255`, respectively
`dst = (src > value) ? 255 : 0`, which is the documented behaviour of OpenCV. -/
def thresholdPixel (value : Int) (invert : Bool) (p : Nat) : Nat :=
  if invert then (if (p : Int) > value then 0 else 255)
  else (if (p : Int) > value then 255 else 0)

/-- The call `img.threshold(value, invert)`: every sample is replaced in place. -/
def GrayImage.threshold (img : GrayImage) (value : Int) (invert : Bool) : GrayImage :=
  { img with pixels := img.pixels.map (thresholdPixel value invert) }

/-- The call `cvAnd(src1, src2, dst, NULL)`: the per-sample bitwise conjunction
of the two sources is written to the buffer of `dst`. -/
def cvAnd (src1 src2 dst : GrayImage) : GrayImage :=
  { dst with pixels := List.zipWith (fun a b => a &&& b) src1.pixels src2.pixels }

/-! ## The application state -/

/-- The members of `ofApp` that the segmentation and the key handler read or
write. The sensor, the sender and the contour finder are external
collaborators and carry no state here. -/
structure ofApp where
  grayImage : GrayImage
  grayThreshNear : GrayImage
  grayThreshFar : GrayImage
  bThreshWithOpenCV : Bool
  bDrawPointCloud : Bool
  nearThreshold : Int
  farThreshold : Int
  angle : Int
deriving DecidableEq, Repr

/-- The state left by `ofApp::setup` for a sensor of the given resolution: the
three images are allocated, the thresholds are 230 and 70, the library path is
selected, the tilt is 0 and the point-cloud view is off. -/
def setup (kinectWidth kinectHeight : Nat) : ofApp :=
  let blank : GrayImage :=
    { width := kinectWidth, height := kinectHeight,
      pixels := List.replicate (kinectWidth * kinectHeight) 0 }
  { grayImage := blank
    grayThreshNear := blank
    grayThreshFar := blank
    nearThreshold := 230
    farThreshold := 70
    bThreshWithOpenCV := true
    angle := 0
    bDrawPointCloud := false }

/-- One iteration of the manual loop of `ofApp::update`:
`if (pix[i] < nearThreshold && pix[i] > farThreshold) pix[i] = 255; else pix[i] = 0;`. -/
def manualStep (nearThreshold farThreshold : Int) (pix : List Nat) (i : Nat) : List Nat :=
  if (pix.getD i 0 : Int) < nearThreshold ∧ (pix.getD i 0 : Int) > farThreshold then
    pix.set i 255
  else
    pix.set i 0

/-- The manual loop `for (int i = 0; i < numPixels; i++)` over the buffer. -/
def manualLoop (nearThreshold farThreshold : Int) (numPixels : Nat) (pix : List Nat) :
    List Nat :=
  (List.range numPixels).foldl (manualStep nearThreshold farThreshold) pix

/-- The function `ofApp::update`. The argument is `none` when the sensor has no
new frame and `some depth` when `kinect.isFrameNew()` holds, `depth` being the
depth pixels together with `kinect.width` and `kinect.height`. The contour
finder that runs afterwards does not change the members modelled here. -/
def update (app : ofApp) (frame : Option GrayImage) : ofApp :=
  match frame with
  | none => app
  | some depth =>
    -- grayImage.setFromPixels(kinect.getDepthPixels().getData(), kinect.width, kinect.height)
    let grayImage : GrayImage := depth
    if app.bThreshWithOpenCV then
      let grayThreshNear := grayImage
      let grayThreshFar := grayImage
      let grayThreshNear := grayThreshNear.threshold app.nearThreshold true
      let grayThreshFar := grayThreshFar.threshold app.farThreshold false
      { app with
        grayThreshNear := grayThreshNear
        grayThreshFar := grayThreshFar
        grayImage := cvAnd grayThreshNear grayThreshFar grayImage }
    else
      let numPixels := grayImage.width * grayImage.height
      { app with
        grayImage :=
          { grayImage with
            pixels := manualLoop app.nearThreshold app.farThreshold numPixels grayImage.pixels } }

/-! ## Reference predicates for the two accepted bands -/

/-- The mask value of the strict band: 255 when `far < p < near`, else 0. -/
def strictBand (near far : Int) (p : Nat) : Nat :=
  if far < (p : Int) ∧ (p : Int) < near then 255 else 0

/-- The mask value of the band closed at `near`: 255 when `far < p ≤ near`, else 0. -/
def upperClosedBand (near far : Int) (p : Nat) : Nat :=
  if far < (p : Int) ∧ (p : Int) ≤ near then 255 else 0

/-- The 4×4 raster of the end-to-end scenario. -/
def raster4 : GrayImage :=
  { width := 4, height := 4,
    pixels := [0, 0, 0, 0, 0, 200, 200, 0, 0, 200, 200, 0, 0, 0, 0, 0] }

/-- The state after `setup` on a 4×4 sensor with the manual path selected and
the thresholds set to the given values. -/
def manualApp (near far : Int) : ofApp :=
  { setup 4 4 with bThreshWithOpenCV := false, nearThreshold := near, farThreshold := far }

/-! ## The point cloud -/

/-- The three sensor queries used by `ofApp::drawPointCloud`. The distance is a
`float` in the source; only its comparison with zero is used, and it is
embedded as a rational number. Colours and positions are kept abstract. -/
structure Kinect (Color Vertex : Type) where
  getDistanceAt : Int → Int → ℚ
  getColorAt : Int → Int → Color
  getWorldCoordinateAt : Int → Int → Vertex

/-- The part of an `ofMesh` that `drawPointCloud` fills: the colour list and
the vertex list, each in insertion order. -/
structure ofMesh (Color Vertex : Type) where
  colors : List Color
  vertices : List Vertex
deriving DecidableEq, Repr

/-- The call `mesh.addColor(c)`: the colour is appended. -/
def ofMesh.addColor {Color Vertex : Type} (mesh : ofMesh Color Vertex) (c : Color) :
    ofMesh Color Vertex :=
  { mesh with colors := mesh.colors ++ [c] }

/-- The call `mesh.addVertex(v)`: the vertex is appended. -/
def ofMesh.addVertex {Color Vertex : Type} (mesh : ofMesh Color Vertex) (v : Vertex) :
    ofMesh Color Vertex :=
  { mesh with vertices := mesh.vertices ++ [v] }

/-- The body of the inner loop of `drawPointCloud` at the cell `(x, y)`. -/
def visitCell {Color Vertex : Type} (kinect : Kinect Color Vertex) (y : Int)
    (mesh : ofMesh Color Vertex) (x : Int) : ofMesh Color Vertex :=
  if kinect.getDistanceAt x y > 0 then
    (mesh.addColor (kinect.getColorAt x y)).addVertex (kinect.getWorldCoordinateAt x y)
  else
    mesh

/-- The inner loop `for (x; x < w; x += step)` of `drawPointCloud`, started at
`x`. The first argument bounds the number of times the loop condition may be
evaluated; `none` means that the bound was reached before the loop ended. -/
def innerLoop {Color Vertex : Type} (kinect : Kinect Color Vertex) (w step y : Int) :
    Nat → Int → ofMesh Color Vertex → Option (ofMesh Color Vertex)
  | 0, _, _ => none
  | fuel + 1, x, mesh =>
    if x < w then
      innerLoop kinect w step y fuel (x + step) (visitCell kinect y mesh x)
    else
      some mesh

/-- The outer loop `for (y; y < h; y += step)` of `drawPointCloud`, started at
`y`; every row runs the inner loop from `x = 0` with the bound `fuel`. -/
def outerLoop {Color Vertex : Type} (kinect : Kinect Color Vertex) (w h step : Int)
    (fuel : Nat) : Nat → Int → ofMesh Color Vertex → Option (ofMesh Color Vertex)
  | 0, _, _ => none
  | n + 1, y, mesh =>
    if y < h then
      match innerLoop kinect w step y fuel 0 mesh with
      | none => none
      | some mesh => outerLoop kinect w h step fuel n (y + step) mesh
    else
      some mesh

/-- The nested loop of `drawPointCloud` for arbitrary `w`, `h` and `step`,
started on an empty mesh; each loop may evaluate its condition `fuel` times. -/
def buildCloud {Color Vertex : Type} (kinect : Kinect Color Vertex) (w h step : Int)
    (fuel : Nat) : Option (ofMesh Color Vertex) :=
  outerLoop kinect w h step fuel fuel 0 { colors := [], vertices := [] }

/-- The mesh built by `ofApp::drawPointCloud`, whose locals are `w = 640`,
`h = 480` and `step = 2`. The drawing calls that follow do not change it. -/
def drawPointCloud {Color Vertex : Type} (kinect : Kinect Color Vertex) (fuel : Nat) :
    Option (ofMesh Color Vertex) :=
  buildCloud kinect 640 480 2 fuel

/-! ### The sampling grid, stated independently of the loops -/

/-- Number of multiples `0, step, 2 * step, ...` that are below `limit`, for a
positive `step`: the quotient of `limit + step - 1` by `step`, or 0 when that
is negative. -/
def axisCount (limit step : Int) : Nat :=
  ((limit + step - 1) / step).toNat

/-- The coordinates `0, step, 2 * step, ...` below `limit`, in increasing order. -/
def gridAxis (limit step : Int) : List Int :=
  (List.range (axisCount limit step)).map (fun i : Nat => (i : Int) * step)

/-- The grid cells `(x, y)` in row-major scan order: `y` outer, `x` inner. -/
def gridCells (w h step : Int) : List (Int × Int) :=
  (gridAxis h step).flatMap (fun y => (gridAxis w step).map (fun x => (x, y)))

/-- The loop body folded over the grid, rows outermost: the mesh the two loops
build when they run to completion. -/
def scanMesh {Color Vertex : Type} (kinect : Kinect Color Vertex) (w h step : Int) :
    ofMesh Color Vertex :=
  (gridAxis h step).foldl
    (fun mesh y => (gridAxis w step).foldl (visitCell kinect y) mesh)
    { colors := [], vertices := [] }

/-- The grid cells with a positive distance, in scan order. -/
def emittedCells {Color Vertex : Type} (kinect : Kinect Color Vertex) (w h step : Int) :
    List (Int × Int) :=
  (gridCells w h step).filter (fun c => decide (kinect.getDistanceAt c.1 c.2 > 0))

/-- A sensor used to evaluate the loops: the distance is 0 on the diagonal
`x = y` and `x + y + 1` elsewhere, the colour of a cell is `x`, its position
is `(x, y)`. -/
def sampleKinect : Kinect Int (Int × Int) :=
  { getDistanceAt := fun x y => if x = y then 0 else ((x + y + 1 : Int) : ℚ)
    getColorAt := fun x _ => x
    getWorldCoordinateAt := fun x y => (x, y) }

/-- A sensor whose every distance is positive. -/
def validKinect : Kinect Unit Unit :=
  { getDistanceAt := fun _ _ => 1
    getColorAt := fun _ _ => ()
    getWorldCoordinateAt := fun _ _ => () }

/-! ## The key handler -/

/-- The function `ofApp::keyPressed`. The switch is written as a chain of
tests in the order of its case labels; the labels are the character codes
`' '` = 32, `'p'` = 112, `'>'` = 62, `'.'` = 46, `'<'` = 60, `','` = 44,
`'+'` = 43, `'='` = 61, `'-'` = 45, `'w'` = 119, `'o'` = 111, `'c'` = 99,
`'1'`..`'5'` = 49..53, `'0'` = 48, and the two openFrameworks constants
`OF_KEY_UP` and `OF_KEY_DOWN`, which are declared outside this repository and
are taken as parameters. The calls on the sensor (tilt, open, close, LED,
depth polarity) do not change the members of `ofApp`. -/
def keyPressed (OF_KEY_UP OF_KEY_DOWN : Int) (app : ofApp) (key : Int) : ofApp :=
  if key = 32 then
    { app with bThreshWithOpenCV := !app.bThreshWithOpenCV }
  else if key = 112 then
    { app with bDrawPointCloud := !app.bDrawPointCloud }
  else if key = 62 ∨ key = 46 then
    let farThreshold := app.farThreshold + 1
    { app with farThreshold := if farThreshold > 255 then 255 else farThreshold }
  else if key = 60 ∨ key = 44 then
    let farThreshold := app.farThreshold - 1
    { app with farThreshold := if farThreshold < 0 then 0 else farThreshold }
  else if key = 43 ∨ key = 61 then
    let nearThreshold := app.nearThreshold + 1
    { app with nearThreshold := if nearThreshold > 255 then 255 else nearThreshold }
  else if key = 45 then
    let nearThreshold := app.nearThreshold - 1
    { app with nearThreshold := if nearThreshold < 0 then 0 else nearThreshold }
  else if key = 119 then app
  else if key = 111 then app
  else if key = 99 then app
  else if key = 49 ∨ key = 50 ∨ key = 51 ∨ key = 52 ∨ key = 53 ∨ key = 48 then app
  else if key = OF_KEY_UP then
    let angle := app.angle + 1
    { app with angle := if angle > 30 then 30 else angle }
  else if key = OF_KEY_DOWN then
    let angle := app.angle - 1
    { app with angle := if angle < -30 then -30 else angle }
  else
    app

/-- The state after a sequence of key events, oldest first. -/
def keysPressed (OF_KEY_UP OF_KEY_DOWN : Int) (app : ofApp) (keys : List Int) : ofApp :=
  keys.foldl (keyPressed OF_KEY_UP OF_KEY_DOWN) app

/-- The three clamping bounds of the configuration. -/
def ofApp.clamped (app : ofApp) : Prop :=
  (0 ≤ app.nearThreshold ∧ app.nearThreshold ≤ 255) ∧
    (0 ≤ app.farThreshold ∧ app.farThreshold ≤ 255) ∧
    (-30 ≤ app.angle ∧ app.angle ≤ 30)

/-! ## Auxiliary lemmas: segmentation -/

theorem manualStep_length (near far : Int) (pix : List Nat) (i : Nat) :
    (manualStep near far pix i).length = pix.length := by
  unfold manualStep; split <;> simp

theorem manualStep_eq (near far : Int) (pix : List Nat) (i : Nat) :
    manualStep near far pix i = pix.set i (strictBand near far (pix.getD i 0)) := by
  unfold manualStep strictBand
  by_cases h : (pix.getD i 0 : Int) < near ∧ (pix.getD i 0 : Int) > far
  · rw [if_pos h, if_pos ⟨h.2, h.1⟩]
  · rw [if_neg h, if_neg (fun h2 => h ⟨h2.2, h2.1⟩)]

/-- After `n` iterations the first `n` samples are classified and the rest
are untouched. -/
theorem manualLoop_upTo (near far : Int) (pix : List Nat) :
    ∀ n, n ≤ pix.length →
      manualLoop near far n pix = (pix.take n).map (strictBand near far) ++ pix.drop n := by
  intro n
  induction n with
  | zero => intro _; simp [manualLoop]
  | succ n ih =>
    intro hn
    have hn2 : n < pix.length := hn
    have ih2 := ih (Nat.le_of_lt hn2)
    unfold manualLoop at ih2 ⊢
    rw [List.range_succ, List.foldl_append, ih2]
    simp only [List.foldl_cons, List.foldl_nil]
    rw [manualStep_eq]
    have hlen : ((List.take n pix).map (strictBand near far)).length = n := by
      simp [Nat.min_eq_left (Nat.le_of_lt hn2)]
    have hdrop : List.drop n pix = pix[n] :: List.drop (n + 1) pix :=
      List.drop_eq_getElem_cons hn2
    have htake : List.take (n + 1) pix = List.take n pix ++ [pix[n]] := by
      rw [List.take_succ, List.getElem?_eq_getElem hn2]; rfl
    rw [hdrop, htake, List.set_append_right _ _ (Nat.le_of_eq hlen), hlen, Nat.sub_self,
      List.set_cons_zero]
    have hget : ((List.take n pix).map (strictBand near far)
        ++ pix[n] :: List.drop (n + 1) pix).getD n 0 = pix[n] := by
      rw [List.getD_eq_getElem?_getD, List.getElem?_append_right (Nat.le_of_eq hlen), hlen,
        Nat.sub_self, List.getElem?_cons_zero]
      rfl
    rw [hget, List.map_append, List.append_assoc]
    rfl

/-- The manual loop run over the whole buffer classifies every sample. -/
theorem manualLoop_full (near far : Int) (pix : List Nat) :
    manualLoop near far pix.length pix = pix.map (strictBand near far) := by
  rw [manualLoop_upTo near far pix pix.length (Nat.le_refl _)]
  simp

/-- The conjunction of the two library thresholds on one sample. -/
theorem thresholdPixel_and (near far : Int) (p : Nat) :
    thresholdPixel near true p &&& thresholdPixel far false p = upperClosedBand near far p := by
  unfold thresholdPixel upperClosedBand
  by_cases h1 : (p : Int) > near <;> by_cases h2 : (p : Int) > far
  · have h3 : ¬ (far < (p : Int) ∧ (p : Int) ≤ near) := fun h => absurd h.2 (not_le.mpr h1)
    simp only [if_true, if_pos h1, if_pos h2, if_neg h3, Bool.false_eq_true, if_false]
    decide
  · have h3 : ¬ (far < (p : Int) ∧ (p : Int) ≤ near) := fun h => h2 h.1
    simp only [if_true, if_pos h1, if_neg h2, if_neg h3, Bool.false_eq_true, if_false]
    decide
  · have h3 : far < (p : Int) ∧ (p : Int) ≤ near := ⟨h2, not_lt.mp h1⟩
    simp only [if_true, if_neg h1, if_pos h2, if_pos h3, Bool.false_eq_true, if_false]
    decide
  · have h3 : ¬ (far < (p : Int) ∧ (p : Int) ≤ near) := fun h => h2 h.1
    simp only [if_true, if_neg h1, if_neg h2, if_neg h3, Bool.false_eq_true, if_false]
    decide

theorem zipWith_map_same (f g : Nat → Nat) (l : List Nat) :
    List.zipWith (fun a b => a &&& b) (l.map f) (l.map g) = l.map (fun p => f p &&& g p) := by
  induction l with
  | nil => rfl
  | cons a t ih => simp only [List.map_cons, List.zipWith_cons_cons, ih]

/-- The mask written by the manual path of `update`. -/
theorem update_manual_pixels (app : ofApp) (depth : GrayImage)
    (hman : app.bThreshWithOpenCV = false) (halloc : depth.allocated) :
    (update app (some depth)).grayImage.pixels
      = depth.pixels.map (strictBand app.nearThreshold app.farThreshold) := by
  unfold GrayImage.allocated at halloc
  simp only [update, hman, Bool.false_eq_true, if_false]
  rw [← halloc]
  exact manualLoop_full _ _ _

/-- The mask written by the library path of `update`. -/
theorem update_library_pixels (app : ofApp) (depth : GrayImage)
    (hlib : app.bThreshWithOpenCV = true) :
    (update app (some depth)).grayImage.pixels
      = depth.pixels.map (upperClosedBand app.nearThreshold app.farThreshold) := by
  simp only [update, hlib, if_true, cvAnd, GrayImage.threshold]
  rw [zipWith_map_same]
  apply List.map_congr_left
  intro p _
  exact thresholdPixel_and _ _ p

theorem strictBand_le_upperClosedBand (near far : Int) (p : Nat) :
    strictBand near far p = 255 → upperClosedBand near far p = 255 := by
  unfold strictBand upperClosedBand
  intro h
  by_cases h1 : far < (p : Int) ∧ (p : Int) < near
  · rw [if_pos ⟨h1.1, le_of_lt h1.2⟩]
  · rw [if_neg h1] at h; exact absurd h (by decide)

theorem bands_differ_iff (near far : Int) (p : Nat) :
    upperClosedBand near far p ≠ strictBand near far p ↔ (p : Int) = near ∧ far < near := by
  unfold strictBand upperClosedBand
  by_cases h1 : far < (p : Int) <;> by_cases h2 : (p : Int) < near <;>
    by_cases h3 : (p : Int) = near <;> simp [h1, h2, h3] <;> omega

/-! ## Auxiliary lemmas: the point cloud -/

/-- For a positive step, exactly the first `axisCount limit step` multiples of
the step are below the limit. -/
theorem axisCount_spec (limit step : Int) (hstep : 0 < step) :
    (∀ i : Nat, i < axisCount limit step → (i : Int) * step < limit) ∧
      ¬ ((axisCount limit step : Int) * step < limit) := by
  unfold axisCount
  have hdm := Int.ediv_add_emod (limit + step - 1) step
  have hnn := Int.emod_nonneg (limit + step - 1) (ne_of_gt hstep)
  have hlt := Int.emod_lt_of_pos (limit + step - 1) hstep
  set q := (limit + step - 1) / step with hq
  set r := (limit + step - 1) % step with hr
  constructor
  · intro i hi
    have hi2 : (i : Int) < q := by
      have := Int.lt_toNat.mp hi
      exact this
    have h1 : (i : Int) + 1 ≤ q := hi2
    have h2 : ((i : Int) + 1) * step ≤ q * step := mul_le_mul_of_nonneg_right h1 (le_of_lt hstep)
    have h3 : step * q = q * step := mul_comm _ _
    linarith
  · intro hcon
    by_cases hq0 : 0 ≤ q
    · rw [Int.toNat_of_nonneg hq0] at hcon
      have h3 : step * q = q * step := mul_comm _ _
      linarith
    · have hq1 : q ≤ -1 := by omega
      have h2 : q * step ≤ (-1) * step := mul_le_mul_of_nonneg_right hq1 (le_of_lt hstep)
      have h3 : step * q = q * step := mul_comm _ _
      have h4 : q.toNat = 0 := Int.toNat_eq_zero.mpr (by omega)
      rw [h4] at hcon
      simp at hcon
      linarith

theorem range_succ_map_affine (n : Nat) (x step : Int) :
    (List.range (n + 1)).map (fun i : Nat => x + (i : Int) * step)
      = x :: (List.range n).map (fun i : Nat => (x + step) + (i : Int) * step) := by
  rw [List.range_succ_eq_map, List.map_cons, List.map_map]
  congr 1
  · simp
  · apply List.map_congr_left
    intro i _
    simp only [Function.comp, Nat.succ_eq_add_one]
    push_cast
    ring

/-- A loop that leaves its range after exactly `n` steps from `x` returns the
fold of its body over the `n` visited coordinates, given more than `n`
evaluations of its condition. -/
theorem innerLoop_run {Color Vertex : Type} (kinect : Kinect Color Vertex) (w step y : Int) :
    ∀ (n : Nat) (x : Int) (mesh : ofMesh Color Vertex) (fuel : Nat),
      (∀ i : Nat, i < n → x + (i : Int) * step < w) → ¬ (x + (n : Int) * step < w) →
      n < fuel →
      innerLoop kinect w step y fuel x mesh
        = some (((List.range n).map (fun i : Nat => x + (i : Int) * step)).foldl
            (visitCell kinect y) mesh) := by
  intro n
  induction n with
  | zero =>
    intro x mesh fuel _ hout hfuel
    obtain ⟨f, rfl⟩ := Nat.exists_eq_succ_of_ne_zero (Nat.ne_of_gt hfuel)
    have hx : ¬ x < w := by simpa using hout
    simp [innerLoop, hx]
  | succ n ih =>
    intro x mesh fuel hin hout hfuel
    obtain ⟨f, rfl⟩ := Nat.exists_eq_succ_of_ne_zero (Nat.ne_of_gt (Nat.lt_of_le_of_lt (Nat.zero_le _) hfuel))
    have hx : x < w := by simpa using hin 0 (Nat.succ_pos n)
    have hin2 : ∀ i : Nat, i < n → (x + step) + (i : Int) * step < w := by
      intro i hi
      have := hin (i + 1) (Nat.succ_lt_succ hi)
      push_cast at this
      linarith
    have hout2 : ¬ ((x + step) + (n : Int) * step < w) := by
      intro hc
      apply hout
      push_cast
      linarith
    rw [range_succ_map_affine, List.foldl_cons]
    rw [← ih (x + step) (visitCell kinect y mesh x) f hin2 hout2 (Nat.lt_of_succ_lt_succ hfuel)]
    simp [innerLoop, hx]

theorem gridAxis_eq (limit step : Int) :
    gridAxis limit step
      = (List.range (axisCount limit step)).map (fun i : Nat => 0 + (i : Int) * step) := by
  unfold gridAxis
  apply List.map_congr_left
  intro i _
  simp

/-- The inner loop of a row, for a positive step. -/
theorem innerLoop_row {Color Vertex : Type} (kinect : Kinect Color Vertex) (w step y : Int)
    (hstep : 0 < step) (mesh : ofMesh Color Vertex) (fuel : Nat)
    (hfuel : axisCount w step < fuel) :
    innerLoop kinect w step y fuel 0 mesh
      = some ((gridAxis w step).foldl (visitCell kinect y) mesh) := by
  have hs := axisCount_spec w step hstep
  rw [gridAxis_eq]
  apply innerLoop_run kinect w step y (axisCount w step) 0 mesh fuel
  · intro i hi; simpa using hs.1 i hi
  · simpa using hs.2
  · exact hfuel

theorem outerLoop_run {Color Vertex : Type} (kinect : Kinect Color Vertex) (w h step : Int)
    (hstep : 0 < step) (fuel : Nat) (hfuel : axisCount w step < fuel) :
    ∀ (n : Nat) (y : Int) (mesh : ofMesh Color Vertex) (m : Nat),
      (∀ i : Nat, i < n → y + (i : Int) * step < h) → ¬ (y + (n : Int) * step < h) →
      n < m →
      outerLoop kinect w h step fuel m y mesh
        = some (((List.range n).map (fun i : Nat => y + (i : Int) * step)).foldl
            (fun mesh y => (gridAxis w step).foldl (visitCell kinect y) mesh) mesh) := by
  intro n
  induction n with
  | zero =>
    intro y mesh m _ hout hm
    obtain ⟨f, rfl⟩ := Nat.exists_eq_succ_of_ne_zero (Nat.ne_of_gt hm)
    have hy : ¬ y < h := by simpa using hout
    simp [outerLoop, hy]
  | succ n ih =>
    intro y mesh m hin hout hm
    obtain ⟨f, rfl⟩ := Nat.exists_eq_succ_of_ne_zero (Nat.ne_of_gt (Nat.lt_of_le_of_lt (Nat.zero_le _) hm))
    have hy : y < h := by simpa using hin 0 (Nat.succ_pos n)
    have hin2 : ∀ i : Nat, i < n → (y + step) + (i : Int) * step < h := by
      intro i hi
      have := hin (i + 1) (Nat.succ_lt_succ hi)
      push_cast at this
      linarith
    have hout2 : ¬ ((y + step) + (n : Int) * step < h) := by
      intro hc
      apply hout
      push_cast
      linarith
    rw [range_succ_map_affine, List.foldl_cons]
    rw [← ih (y + step) _ f hin2 hout2 (Nat.lt_of_succ_lt_succ hm)]
    simp [outerLoop, hy, innerLoop_row kinect w step y hstep mesh fuel hfuel]

/-- With a positive step and enough fuel the nested loop returns the fold of
the loop body over the grid. -/
theorem buildCloud_eq_scanMesh {Color Vertex : Type} (kinect : Kinect Color Vertex)
    (w h step : Int) (hstep : 0 < step) (fuel : Nat)
    (hfuel : max (axisCount w step) (axisCount h step) < fuel) :
    buildCloud kinect w h step fuel = some (scanMesh kinect w h step) := by
  have hw : axisCount w step < fuel := lt_of_le_of_lt (le_max_left _ _) hfuel
  have hh : axisCount h step < fuel := lt_of_le_of_lt (le_max_right _ _) hfuel
  have hs := axisCount_spec h step hstep
  unfold buildCloud scanMesh
  rw [gridAxis_eq h step]
  apply outerLoop_run kinect w h step hstep fuel hw (axisCount h step) 0 _ fuel
  · intro i hi; simpa using hs.1 i hi
  · simpa using hs.2
  · exact hh

theorem row_fold {Color Vertex : Type} (kinect : Kinect Color Vertex) (y : Int) :
    ∀ (xs : List Int) (mesh : ofMesh Color Vertex),
      xs.foldl (visitCell kinect y) mesh
        = { colors := mesh.colors ++
              ((xs.map (fun x => (x, y))).filter
                (fun c => decide (kinect.getDistanceAt c.1 c.2 > 0))).map
                (fun c => kinect.getColorAt c.1 c.2)
            vertices := mesh.vertices ++
              ((xs.map (fun x => (x, y))).filter
                (fun c => decide (kinect.getDistanceAt c.1 c.2 > 0))).map
                (fun c => kinect.getWorldCoordinateAt c.1 c.2) } := by
  intro xs
  induction xs with
  | nil => intro mesh; simp
  | cons x t ih =>
    intro mesh
    rw [List.foldl_cons, ih]
    by_cases hd : kinect.getDistanceAt x y > 0
    · simp [visitCell, hd, ofMesh.addColor, ofMesh.addVertex, List.filter_cons]
    · simp [visitCell, hd, List.filter_cons]

theorem rows_fold {Color Vertex : Type} (kinect : Kinect Color Vertex) (xs : List Int) :
    ∀ (ys : List Int) (mesh : ofMesh Color Vertex),
      ys.foldl (fun mesh y => xs.foldl (visitCell kinect y) mesh) mesh
        = { colors := mesh.colors ++
              ((ys.flatMap (fun y => xs.map (fun x => (x, y)))).filter
                (fun c => decide (kinect.getDistanceAt c.1 c.2 > 0))).map
                (fun c => kinect.getColorAt c.1 c.2)
            vertices := mesh.vertices ++
              ((ys.flatMap (fun y => xs.map (fun x => (x, y)))).filter
                (fun c => decide (kinect.getDistanceAt c.1 c.2 > 0))).map
                (fun c => kinect.getWorldCoordinateAt c.1 c.2) } := by
  intro ys
  induction ys with
  | nil => intro mesh; simp
  | cons y t ih =>
    intro mesh
    rw [List.foldl_cons, ih, row_fold]
    simp [List.flatMap_cons, List.filter_append, List.map_append, List.append_assoc]

/-- The completed scan holds the colours and the positions of the emitted
cells, both in scan order. -/
theorem scanMesh_eq {Color Vertex : Type} (kinect : Kinect Color Vertex) (w h step : Int) :
    scanMesh kinect w h step
      = { colors := (emittedCells kinect w h step).map (fun c => kinect.getColorAt c.1 c.2)
          vertices :=
            (emittedCells kinect w h step).map (fun c => kinect.getWorldCoordinateAt c.1 c.2) } := by
  unfold scanMesh emittedCells gridCells
  rw [rows_fold]
  simp

theorem gridCells_length (w h step : Int) :
    (gridCells w h step).length = axisCount h step * axisCount w step := by
  have hrow : ∀ ys : List Int,
      (ys.flatMap (fun y => (gridAxis w step).map (fun x => (x, y)))).length
        = ys.length * axisCount w step := by
    intro ys
    induction ys with
    | nil => simp
    | cons y t ih =>
      rw [List.flatMap_cons, List.length_append, ih]
      simp [gridAxis, Nat.succ_mul, Nat.add_comm]
  unfold gridCells
  rw [hrow]
  simp [gridAxis]

/-- For a positive step and a non-negative limit the count is the ceiling of
the quotient. -/
theorem axisCount_eq_ceil (limit step : Int) (hstep : 0 < step) (hlimit : 0 ≤ limit) :
    (axisCount limit step : Int) = ⌈(limit : ℚ) / (step : ℚ)⌉ := by
  have hs := axisCount_spec limit step hstep
  have hsq : (0 : ℚ) < (step : ℚ) := by exact_mod_cast hstep
  symm
  rw [Int.ceil_eq_iff]
  constructor
  · rw [lt_div_iff₀ hsq]
    rcases Nat.eq_zero_or_pos (axisCount limit step) with h0 | hpos
    · rw [h0]
      have hl : (0 : ℚ) ≤ (limit : ℚ) := by exact_mod_cast hlimit
      have : ((0 : Nat) : Int) = 0 := rfl
      push_cast
      linarith
    · have h1 := hs.1 (axisCount limit step - 1) (Nat.sub_lt hpos Nat.one_pos)
      have h2 : ((axisCount limit step - 1 : Nat) : Int) = (axisCount limit step : Int) - 1 := by
        omega
      rw [h2] at h1
      have h3 : (((axisCount limit step : Int) - 1) * step : ℚ) < (limit : ℚ) := by
        exact_mod_cast h1
      simpa using h3
  · rw [div_le_iff₀ hsq]
    have h1 : limit ≤ (axisCount limit step : Int) * step := not_lt.mp hs.2
    exact_mod_cast h1

/-- Membership in an axis of the grid, for a positive step. -/
theorem mem_gridAxis (limit step : Int) (hstep : 0 < step) (x : Int) :
    x ∈ gridAxis limit step ↔ 0 ≤ x ∧ x < limit ∧ step ∣ x := by
  have hs := axisCount_spec limit step hstep
  unfold gridAxis
  rw [List.mem_map]
  constructor
  · rintro ⟨i, hi, rfl⟩
    rw [List.mem_range] at hi
    exact ⟨mul_nonneg (Int.ofNat_nonneg i) (le_of_lt hstep), hs.1 i hi, Dvd.intro_left _ rfl⟩
  · rintro ⟨h0, hlt, k, rfl⟩
    have hk : 0 ≤ k := by
      by_contra hneg
      have hk1 : k ≤ -1 := by omega
      have := mul_le_mul_of_nonneg_left hk1 (le_of_lt hstep)
      linarith
    refine ⟨k.toNat, ?_, ?_⟩
    · rw [List.mem_range]
      by_contra hge
      have hge2 : (axisCount limit step : Int) ≤ k := by
        have := not_lt.mp hge
        have h2 : ((k.toNat : Nat) : Int) = k := Int.toNat_of_nonneg hk
        omega
      have := mul_le_mul_of_nonneg_right hge2 (le_of_lt hstep)
      have hc := not_lt.mp hs.2
      have hcomm : step * k = k * step := mul_comm _ _
      linarith
    · rw [Int.toNat_of_nonneg hk, mul_comm]

/-- An axis of the grid is strictly increasing, for a positive step. -/
theorem gridAxis_sorted (limit step : Int) (hstep : 0 < step) :
    (gridAxis limit step).Pairwise (fun a b => a < b) := by
  unfold gridAxis
  rw [List.pairwise_map]
  apply List.Pairwise.imp _ (List.pairwise_lt_range _)
  intro a b hab
  have : (a : Int) < (b : Int) := by exact_mod_cast hab
  exact mul_lt_mul_of_pos_right this hstep

/-- Membership in the grid, for a positive step. -/
theorem mem_gridCells (w h step : Int) (hstep : 0 < step) (x y : Int) :
    (x, y) ∈ gridCells w h step ↔
      (0 ≤ x ∧ x < w ∧ step ∣ x) ∧ (0 ≤ y ∧ y < h ∧ step ∣ y) := by
  unfold gridCells
  rw [List.mem_flatMap]
  constructor
  · rintro ⟨y2, hy2, hmem⟩
    rw [List.mem_map] at hmem
    obtain ⟨x2, hx2, heq⟩ := hmem
    cases heq
    exact ⟨(mem_gridAxis w step hstep x).mp hx2, (mem_gridAxis h step hstep y).mp hy2⟩
  · rintro ⟨hx, hy⟩
    exact ⟨y, (mem_gridAxis h step hstep y).mpr hy,
      List.mem_map.mpr ⟨x, (mem_gridAxis w step hstep x).mpr hx, rfl⟩⟩

/-- The grid is listed in row-major order: rows by increasing `y`, and inside a
row by increasing `x`. -/
theorem gridCells_sorted (w h step : Int) (hstep : 0 < step) :
    (gridCells w h step).Pairwise (fun a b => a.2 < b.2 ∨ (a.2 = b.2 ∧ a.1 < b.1)) := by
  unfold gridCells
  rw [List.pairwise_flatMap]
  constructor
  · intro y _
    rw [List.pairwise_map]
    apply List.Pairwise.imp _ (gridAxis_sorted w step hstep)
    intro a b hab
    exact Or.inr ⟨rfl, hab⟩
  · apply List.Pairwise.imp _ (gridAxis_sorted h step hstep)
    intro y1 y2 hy a ha b hb
    rw [List.mem_map] at ha hb
    obtain ⟨_, _, rfl⟩ := ha
    obtain ⟨_, _, rfl⟩ := hb
    exact Or.inl hy

/-- The function `drawPointCloud` returns a mesh as soon as each loop may
evaluate its condition 321 times: 320 columns and 240 rows are visited. -/
theorem drawPointCloud_returns {Color Vertex : Type} (kinect : Kinect Color Vertex)
    (fuel : Nat) (hfuel : 321 ≤ fuel) :
    drawPointCloud kinect fuel = some (scanMesh kinect 640 480 2) := by
  have h1 : axisCount 640 2 = 320 := by decide
  have h2 : axisCount 480 2 = 240 := by decide
  apply buildCloud_eq_scanMesh kinect 640 480 2 (by decide) fuel
  rw [h1, h2]
  exact lt_of_lt_of_le (by decide) hfuel

/-! ## Auxiliary lemmas: the key handler -/

theorem ite_clamped (c : Prop) [Decidable c] (a b : ofApp) (ha : a.clamped) (hb : b.clamped) :
    (if c then a else b).clamped := by
  split <;> assumption

/-- One key event keeps the configuration inside its bounds. -/
theorem keyPressed_clamped (up down : Int) (app : ofApp) (key : Int) (hc : app.clamped) :
    (keyPressed up down app key).clamped := by
  have hc2 := hc
  obtain ⟨⟨hn0, hn1⟩, ⟨hf0, hf1⟩, ⟨ha0, ha1⟩⟩ := hc2
  unfold keyPressed
  repeat' apply ite_clamped
  all_goals first
    | exact hc
    | (unfold ofApp.clamped; dsimp only
       refine ⟨⟨?_, ?_⟩, ⟨?_, ?_⟩, ⟨?_, ?_⟩⟩ <;> first | assumption | (split <;> omega))

theorem keysPressed_clamped (up down : Int) (keys : List Int) :
    ∀ app : ofApp, app.clamped → (keysPressed up down app keys).clamped := by
  induction keys with
  | nil => intro app hc; exact hc
  | cons k t ih =>
    intro app hc
    exact ih _ (keyPressed_clamped up down app k hc)

/-- The state left by `setup` is inside the bounds. -/
theorem setup_clamped (kinectWidth kinectHeight : Nat) :
    (setup kinectWidth kinectHeight).clamped := by
  unfold ofApp.clamped setup
  dsimp only
  omega

/-- One `'+'` or `'='` event. -/
theorem keyPressed_plus (up down : Int) (app : ofApp) (key : Int) (hkey : key = 43 ∨ key = 61) :
    keyPressed up down app key
      = { app with nearThreshold :=
            if app.nearThreshold + 1 > 255 then 255 else app.nearThreshold + 1 } := by
  unfold keyPressed
  rcases hkey with rfl | rfl <;> simp

/-! ## Segmentation: the claims -/

/-- C1. Manual range-test segmentation (the else-branch of `ofApp::update`):
for every allocated depth raster and every pair of integer thresholds, the
mask has as many pixels as the input, and each pixel of the mask is 255 when
`far < intensity < near` (both strict) and 0 otherwise. The samples and the
thresholds need not be restricted to 0..255 for this to hold. -/
theorem manual_segmentation_mask (app : ofApp) (depth : GrayImage)
    (hman : app.bThreshWithOpenCV = false) (halloc : depth.allocated) :
    (update app (some depth)).grayImage.pixels.length = depth.pixels.length ∧
      (update app (some depth)).grayImage.pixels
        = depth.pixels.map (fun p : Nat =>
            if app.farThreshold < (p : Int) ∧ (p : Int) < app.nearThreshold then 255 else 0) := by
  have h := update_manual_pixels app depth hman halloc
  refine ⟨?_, h⟩
  rw [h, List.length_map]

/-- C1, the end-to-end scenario: on the 4×4 raster with `near = 230`,
`far = 70` the mask is 255 exactly at rows and columns 1 and 2, and with
`near = 10`, `far = 5` the mask is all zero. -/
theorem manual_segmentation_mask_witness :
    raster4.allocated ∧
      (update (manualApp 230 70) (some raster4)).grayImage.pixels
        = [0, 0, 0, 0, 0, 255, 255, 0, 0, 255, 255, 0, 0, 0, 0, 0] ∧
      (update (manualApp 10 5) (some raster4)).grayImage.pixels = List.replicate 16 0 := by
  refine ⟨by decide, ?_, ?_⟩
  · rw [(manual_segmentation_mask (manualApp 230 70) raster4 rfl (by decide)).2]
    decide
  · rw [(manual_segmentation_mask (manualApp 10 5) raster4 rfl (by decide)).2]
    decide

/-- C2. For every allocated depth raster and all thresholds with `far < near`,
the mask of the library path and the mask of the manual path of
`ofApp::update` are equal at every pixel whose intensity is neither `near` nor
`far`. (The proof uses only that the intensity differs from `near`.) -/
theorem library_manual_agree_off_boundary (app : ofApp) (depth : GrayImage)
    (halloc : depth.allocated) (_hband : app.farThreshold < app.nearThreshold)
    (i p : Nat) (hp : depth.pixels[i]? = some p)
    (hnear : (p : Int) ≠ app.nearThreshold) (_hfar : (p : Int) ≠ app.farThreshold) :
    (update { app with bThreshWithOpenCV := true } (some depth)).grayImage.pixels[i]?
      = (update { app with bThreshWithOpenCV := false } (some depth)).grayImage.pixels[i]? := by
  rw [update_library_pixels _ depth rfl, update_manual_pixels _ depth rfl halloc]
  simp only [List.getElem?_map, hp, Option.map_some']
  congr 1
  by_contra hne
  exact hnear ((bands_differ_iff _ _ p).mp hne).1

/-- C2 at the pixel of value 200 in row 1, column 1 of the 4×4 raster, with the
thresholds 230 and 70 left by `setup`. -/
theorem library_manual_agree_off_boundary_witness :
    raster4.allocated ∧ raster4.pixels[5]? = some 200 ∧
      (update { setup 4 4 with bThreshWithOpenCV := true } (some raster4)).grayImage.pixels[5]?
        = (update { setup 4 4 with bThreshWithOpenCV := false }
            (some raster4)).grayImage.pixels[5]? :=
  ⟨by decide, rfl,
    library_manual_agree_off_boundary (setup 4 4) raster4 (by decide) (by decide) 5 200 rfl
      (by decide) (by decide)⟩

/-- C3 as stated fails: with the thresholds 230 and 70 of `setup` (so
`far < near`), the library path marks a pixel of intensity 230 as foreground
although 230 is not strictly below `near`. -/
theorem library_strict_band_counterexample :
    (setup 1 1).bThreshWithOpenCV = true ∧
      (setup 1 1).farThreshold < (setup 1 1).nearThreshold ∧
      (update (setup 1 1) (some { width := 1, height := 1, pixels := [230] })).grayImage.pixels
        = [255] ∧
      ¬ ((setup 1 1).farThreshold < (230 : Int) ∧ (230 : Int) < (setup 1 1).nearThreshold) := by
  refine ⟨rfl, by decide, by decide, by decide⟩

/-- C3, amended. Library segmentation (two thresholds and `cvAnd`): for every
depth raster and all thresholds, a pixel of the mask is 255 exactly when
`far < intensity ≤ near` and 0 otherwise; hence when `far ≥ near` the mask is
all zero. -/
theorem library_segmentation_mask (app : ofApp) (depth : GrayImage)
    (hlib : app.bThreshWithOpenCV = true) :
    (update app (some depth)).grayImage.pixels
        = depth.pixels.map (fun p : Nat =>
            if app.farThreshold < (p : Int) ∧ (p : Int) ≤ app.nearThreshold then 255 else 0) ∧
      (app.nearThreshold ≤ app.farThreshold →
        (update app (some depth)).grayImage.pixels = List.replicate depth.pixels.length 0) := by
  have h := update_library_pixels app depth hlib
  refine ⟨h, fun hband => ?_⟩
  rw [h, List.eq_replicate_iff]
  refine ⟨List.length_map _ _, ?_⟩
  intro v hv
  rw [List.mem_map] at hv
  obtain ⟨p, _, rfl⟩ := hv
  unfold upperClosedBand
  rw [if_neg]
  intro hc
  omega

/-- C3, amended, on the 4×4 raster: with the thresholds of `setup` the block of
value 200 is foreground, and with an inverted band the mask is all zero. -/
theorem library_segmentation_mask_witness :
    (update (setup 4 4) (some raster4)).grayImage.pixels
        = [0, 0, 0, 0, 0, 255, 255, 0, 0, 255, 255, 0, 0, 0, 0, 0] ∧
      (update { setup 4 4 with nearThreshold := 70, farThreshold := 230 }
        (some raster4)).grayImage.pixels = List.replicate 16 0 := by
  refine ⟨?_, ?_⟩
  · rw [(library_segmentation_mask (setup 4 4) raster4 rfl).1]
    decide
  · exact (library_segmentation_mask { setup 4 4 with nearThreshold := 70, farThreshold := 230 }
      raster4 rfl).2 (by decide)

/-- C8. For every allocated depth raster and all thresholds with `far ≥ near`,
the manual path of `ofApp::update` yields an all-zero mask. -/
theorem manual_inverted_band_empty (app : ofApp) (depth : GrayImage)
    (hman : app.bThreshWithOpenCV = false) (halloc : depth.allocated)
    (hband : app.farThreshold ≥ app.nearThreshold) :
    (update app (some depth)).grayImage.pixels = List.replicate depth.pixels.length 0 := by
  rw [update_manual_pixels app depth hman halloc, List.eq_replicate_iff]
  refine ⟨List.length_map _ _, ?_⟩
  intro v hv
  rw [List.mem_map] at hv
  obtain ⟨p, _, rfl⟩ := hv
  unfold strictBand
  rw [if_neg]
  intro hc
  omega

/-- C8 on the 4×4 raster with `near = 70` and `far = 230`. -/
theorem manual_inverted_band_empty_witness :
    (manualApp 70 230).farThreshold ≥ (manualApp 70 230).nearThreshold ∧
      (update (manualApp 70 230) (some raster4)).grayImage.pixels
        = [0, 0, 0, 0, 0, 0, 0, 0, 0, 0, 0, 0, 0, 0, 0, 0] :=
  ⟨by decide, manual_inverted_band_empty (manualApp 70 230) raster4 rfl (by decide) (by decide)⟩

/-- C10. Exact band of the library path and exact divergence from the manual
path, at every pixel `p` of an allocated raster and for all thresholds: the
library mask is 255 iff `far < p ≤ near` and 0 otherwise; a pixel that is
foreground in the manual mask is foreground in the library mask; the two masks
differ at the pixel exactly when `p = near` and `far < near`, and then the
library mask holds 255 and the manual mask 0; they never differ at `p = far`. -/
theorem library_band_and_divergence (app : ofApp) (depth : GrayImage)
    (halloc : depth.allocated) (i p : Nat) (hp : depth.pixels[i]? = some p) :
    (update { app with bThreshWithOpenCV := true } (some depth)).grayImage.pixels[i]?
        = some (if app.farThreshold < (p : Int) ∧ (p : Int) ≤ app.nearThreshold then 255 else 0) ∧
      ((update { app with bThreshWithOpenCV := false } (some depth)).grayImage.pixels[i]? = some 255 →
        (update { app with bThreshWithOpenCV := true } (some depth)).grayImage.pixels[i]?
          = some 255) ∧
      ((update { app with bThreshWithOpenCV := true } (some depth)).grayImage.pixels[i]?
          ≠ (update { app with bThreshWithOpenCV := false } (some depth)).grayImage.pixels[i]?
        ↔ (p : Int) = app.nearThreshold ∧ app.farThreshold < app.nearThreshold) ∧
      ((p : Int) = app.nearThreshold ∧ app.farThreshold < app.nearThreshold →
        (update { app with bThreshWithOpenCV := true } (some depth)).grayImage.pixels[i]?
            = some 255 ∧
          (update { app with bThreshWithOpenCV := false } (some depth)).grayImage.pixels[i]?
            = some 0) ∧
      ((p : Int) = app.farThreshold →
        (update { app with bThreshWithOpenCV := true } (some depth)).grayImage.pixels[i]?
          = (update { app with bThreshWithOpenCV := false } (some depth)).grayImage.pixels[i]?) := by
  rw [update_library_pixels _ depth rfl, update_manual_pixels _ depth rfl halloc]
  simp only [List.getElem?_map, hp, Option.map_some', Option.some.injEq, ne_eq]
  refine ⟨rfl, strictBand_le_upperClosedBand _ _ p, bands_differ_iff _ _ p, ?_, ?_⟩
  · rintro ⟨h1, h2⟩
    unfold upperClosedBand strictBand
    constructor
    · rw [if_pos]; omega
    · rw [if_neg]; omega
  · intro hfar
    by_contra hne
    have := (bands_differ_iff _ _ p).mp hne
    omega

/-- C10 at a raster holding one pixel of intensity 230 with the thresholds of
`setup`: the library mask is 255 and the manual mask is 0 there. -/
theorem library_band_and_divergence_witness :
    (update { setup 1 1 with bThreshWithOpenCV := true }
        (some { width := 1, height := 1, pixels := [230] })).grayImage.pixels[0]? = some 255 ∧
      (update { setup 1 1 with bThreshWithOpenCV := false }
        (some { width := 1, height := 1, pixels := [230] })).grayImage.pixels[0]? = some 0 :=
  (library_band_and_divergence (setup 1 1) { width := 1, height := 1, pixels := [230] }
    (by decide) 0 230 rfl).2.2.2.1 ⟨by decide, by decide⟩

/-- The loops evaluated on a 4×4 grid with step 2: three evaluations of each
loop condition are enough. -/
theorem buildCloud_sample_run :
    buildCloud sampleKinect 4 4 2 3
      = some { colors := [2, 0], vertices := [(2, 0), (0, 2)] } := by
  decide

/-- Two evaluations of each loop condition are not enough on the same grid. -/
theorem buildCloud_sample_short :
    buildCloud sampleKinect 4 4 2 2 = none := by
  decide

/-! ## The point cloud: the claims -/

/-- C4. Point-cloud construction (the nested loop of `ofApp::drawPointCloud`)
for a positive step: given enough iterations the loop returns, the vertex list
is the list of world coordinates of the grid cells whose distance is positive,
in scan order, and the colour list is the list of colours of the same cells in
the same order, so no cell with a distance `≤ 0` contributes. The grid is
pinned down by the last two parts: its cells are the `(x, y)` with `x` a
multiple of the step in `[0, w)` and `y` a multiple of the step in `[0, h)`,
listed by increasing `y` and, inside a row, by increasing `x`. -/
theorem pointCloud_scan_order {Color Vertex : Type} (kinect : Kinect Color Vertex)
    (w h step : Int) (hstep : 0 < step) :
    (∃ fuel₀ : Nat, ∀ fuel : Nat, fuel₀ ≤ fuel →
      buildCloud kinect w h step fuel = some
        { colors :=
            ((gridCells w h step).filter
              (fun c => decide (kinect.getDistanceAt c.1 c.2 > 0))).map
              (fun c => kinect.getColorAt c.1 c.2)
          vertices :=
            ((gridCells w h step).filter
              (fun c => decide (kinect.getDistanceAt c.1 c.2 > 0))).map
              (fun c => kinect.getWorldCoordinateAt c.1 c.2) }) ∧
      (∀ x y : Int, (x, y) ∈ gridCells w h step ↔
        (0 ≤ x ∧ x < w ∧ step ∣ x) ∧ (0 ≤ y ∧ y < h ∧ step ∣ y)) ∧
      (gridCells w h step).Pairwise (fun a b => a.2 < b.2 ∨ (a.2 = b.2 ∧ a.1 < b.1)) := by
  refine ⟨⟨max (axisCount w step) (axisCount h step) + 1, ?_⟩,
    mem_gridCells w h step hstep, gridCells_sorted w h step hstep⟩
  intro fuel hfuel
  rw [buildCloud_eq_scanMesh kinect w h step hstep fuel hfuel, scanMesh_eq]
  rfl

/-- C4 on a 4×4 grid with step 2 and a sensor whose distance vanishes on the
diagonal: the cells `(2, 0)` and `(0, 2)` are emitted, in this order, and the
cells `(0, 0)` and `(2, 2)` are skipped. -/
theorem pointCloud_scan_order_witness :
    (0 : Int) < 2 ∧
      ∃ fuel₀ : Nat, ∀ fuel : Nat, fuel₀ ≤ fuel →
        buildCloud sampleKinect 4 4 2 fuel
          = some { colors := [2, 0], vertices := [(2, 0), (0, 2)] } := by
  refine ⟨by decide, ?_⟩
  obtain ⟨fuel₀, hrun⟩ := (pointCloud_scan_order sampleKinect 4 4 2 (by decide)).1
  refine ⟨fuel₀, fun fuel hfuel => ?_⟩
  rw [hrun fuel hfuel]
  have hcells : gridCells 4 4 2 = [(0, 0), (2, 0), (0, 2), (2, 2)] := by decide
  rw [hcells]
  norm_num [sampleKinect, List.filter_cons]

/-- C5. Point-cloud size, for a positive step and non-negative `w` and `h`:
given enough iterations the loop returns a mesh with as many colours as
vertices; the number of points is at most `⌈w / step⌉ * ⌈h / step⌉` for every
source, and equals it when every distance is positive. -/
theorem pointCloud_size {Color Vertex : Type} (kinect : Kinect Color Vertex)
    (w h step : Int) (hstep : 0 < step) (hw : 0 ≤ w) (hh : 0 ≤ h) :
    ∃ fuel₀ : Nat, ∀ fuel : Nat, fuel₀ ≤ fuel →
      ∃ mesh : ofMesh Color Vertex, buildCloud kinect w h step fuel = some mesh ∧
        mesh.colors.length = mesh.vertices.length ∧
        (mesh.vertices.length : Int) ≤ ⌈(w : ℚ) / (step : ℚ)⌉ * ⌈(h : ℚ) / (step : ℚ)⌉ ∧
        ((∀ x y : Int, kinect.getDistanceAt x y > 0) →
          (mesh.vertices.length : Int) = ⌈(w : ℚ) / (step : ℚ)⌉ * ⌈(h : ℚ) / (step : ℚ)⌉) := by
  refine ⟨max (axisCount w step) (axisCount h step) + 1, fun fuel hfuel => ?_⟩
  refine ⟨_, buildCloud_eq_scanMesh kinect w h step hstep fuel hfuel, ?_⟩
  rw [scanMesh_eq]
  have hprod : ((gridCells w h step).length : Int)
      = ⌈(w : ℚ) / (step : ℚ)⌉ * ⌈(h : ℚ) / (step : ℚ)⌉ := by
    rw [gridCells_length, ← axisCount_eq_ceil w step hstep hw,
      ← axisCount_eq_ceil h step hstep hh]
    push_cast
    ring
  refine ⟨by simp, ?_, ?_⟩
  · rw [← hprod]
    simp only [List.length_map, emittedCells]
    exact_mod_cast List.length_filter_le _ _
  · intro hpos
    rw [← hprod]
    simp only [List.length_map, emittedCells]
    congr 2
    rw [List.filter_eq_self]
    intro c _
    simpa using hpos c.1 c.2

/-- C5 for the locals of `drawPointCloud` (`w = 640`, `h = 480`, `step = 2`)
and a sensor whose every distance is positive: 76800 points. -/
theorem pointCloud_size_witness :
    ∃ fuel₀ : Nat, ∀ fuel : Nat, fuel₀ ≤ fuel →
      ∃ mesh : ofMesh Unit Unit, drawPointCloud validKinect fuel = some mesh ∧
        mesh.vertices.length = 76800 := by
  obtain ⟨fuel₀, hrun⟩ :=
    pointCloud_size validKinect 640 480 2 (by decide) (by decide) (by decide)
  refine ⟨fuel₀, fun fuel hfuel => ?_⟩
  obtain ⟨mesh, hmesh, _, _, hcount⟩ := hrun fuel hfuel
  refine ⟨mesh, hmesh, ?_⟩
  have h1 := hcount (fun _ _ => by simp [validKinect])
  have h2 : ⌈((640 : Int) : ℚ) / ((2 : Int) : ℚ)⌉ = 320 := by
    rw [Int.ceil_eq_iff]; norm_num
  have h3 : ⌈((480 : Int) : ℚ) / ((2 : Int) : ℚ)⌉ = 240 := by
    rw [Int.ceil_eq_iff]; norm_num
  rw [h2, h3] at h1
  exact_mod_cast h1

/-! ## The key handler: the claims -/

/-- C6. Clamping invariant: in every state reached from the state of
`ofApp::setup` by a finite sequence of `ofApp::keyPressed` events with
arbitrary key codes, `0 ≤ nearThreshold ≤ 255`, `0 ≤ farThreshold ≤ 255` and
`-30 ≤ angle ≤ 30`. -/
theorem keyPressed_clamping_invariant (OF_KEY_UP OF_KEY_DOWN : Int)
    (kinectWidth kinectHeight : Nat) (keys : List Int) :
    (0 ≤ (keysPressed OF_KEY_UP OF_KEY_DOWN (setup kinectWidth kinectHeight) keys).nearThreshold ∧
      (keysPressed OF_KEY_UP OF_KEY_DOWN (setup kinectWidth kinectHeight) keys).nearThreshold
        ≤ 255) ∧
    (0 ≤ (keysPressed OF_KEY_UP OF_KEY_DOWN (setup kinectWidth kinectHeight) keys).farThreshold ∧
      (keysPressed OF_KEY_UP OF_KEY_DOWN (setup kinectWidth kinectHeight) keys).farThreshold
        ≤ 255) ∧
    (-30 ≤ (keysPressed OF_KEY_UP OF_KEY_DOWN (setup kinectWidth kinectHeight) keys).angle ∧
      (keysPressed OF_KEY_UP OF_KEY_DOWN (setup kinectWidth kinectHeight) keys).angle ≤ 30) :=
  keysPressed_clamped OF_KEY_UP OF_KEY_DOWN keys (setup kinectWidth kinectHeight)
    (setup_clamped kinectWidth kinectHeight)

/-- C7. Saturating increment of the near threshold: from a state with
`nearThreshold ≤ 255`, after any sequence of `n` events each of which is `'+'`
or `'='`, `nearThreshold` equals `min (nearThreshold + n) 255`; and from
`nearThreshold = 255` it stays 255. -/
theorem near_increment_saturates (OF_KEY_UP OF_KEY_DOWN : Int) (keys : List Int)
    (hkeys : ∀ k ∈ keys, k = 43 ∨ k = 61) :
    ∀ app : ofApp, app.nearThreshold ≤ 255 →
      (keysPressed OF_KEY_UP OF_KEY_DOWN app keys).nearThreshold
          = min (app.nearThreshold + (keys.length : Int)) 255 ∧
        (app.nearThreshold = 255 →
          (keysPressed OF_KEY_UP OF_KEY_DOWN app keys).nearThreshold = 255) := by
  induction keys with
  | nil =>
    intro app hle
    simp only [keysPressed, List.foldl_nil, List.length_nil]
    omega
  | cons k t ih =>
    intro app hle
    have hk := hkeys k (List.mem_cons_self k t)
    have ht : ∀ k2 ∈ t, k2 = 43 ∨ k2 = 61 := fun k2 hk2 => hkeys k2 (List.mem_cons_of_mem k hk2)
    have hstep := keyPressed_plus OF_KEY_UP OF_KEY_DOWN app k hk
    have hnext : (keyPressed OF_KEY_UP OF_KEY_DOWN app k).nearThreshold
        = if app.nearThreshold + 1 > 255 then 255 else app.nearThreshold + 1 := by
      rw [hstep]
    have hle2 : (keyPressed OF_KEY_UP OF_KEY_DOWN app k).nearThreshold ≤ 255 := by
      rw [hnext]; split <;> omega
    have := (ih ht (keyPressed OF_KEY_UP OF_KEY_DOWN app k) hle2).1
    simp only [keysPressed, List.foldl_cons, List.length_cons] at this ⊢
    rw [this, hnext]
    push_cast
    split <;> omega

/-- C7 from the state of `setup` (near threshold 230): thirty increments, by
`'+'` and `'='` alternately, leave the near threshold at 255. -/
theorem near_increment_saturates_witness :
    (setup 4 4).nearThreshold ≤ 255 ∧
      (keysPressed 57357 57359 (setup 4 4)
        ((List.replicate 15 [43, 61]).flatten)).nearThreshold = 255 := by
  refine ⟨by decide, ?_⟩
  rw [(near_increment_saturates 57357 57359 ((List.replicate 15 [43, 61]).flatten)
    (by decide) (setup 4 4) (by decide)).1]
  decide

end KinectNdi
